import Mathlib

/-!
Verification of the cursor-smoothing core of open-screenstudio.

The TypeScript sources `spring.ts` (spring physics), `cursorSmoothing.ts`
(incremental and batch cursor smoothing) and `CursorOverlay.tsx`
(`calculateScale`) are shallowly embedded below.  JavaScript numbers are
modelled as rationals (`ℚ`); all arithmetic in the embedded code is exact,
so every operation of the source is mirrored one for one.  The single
non-rational operation, `Math.sqrt` in the teleport test
`Math.sqrt (dx*dx + dy*dy) > threshold`, is replaced by its exact
characterisation over the nonnegative radicand (`sqrtGtQ`).
-/

/-- Spring configuration, from `spring.ts` (`SpringConfig`). -/
structure SpringConfig where
  stiffness : ℚ
  damping : ℚ
  mass : ℚ
deriving DecidableEq, Repr

/-- Constant `DEFAULT_SPRING_CONFIG` from `spring.ts`. -/
def DEFAULT_SPRING_CONFIG : SpringConfig := ⟨800, 80, 1⟩

/-- One-dimensional spring state, from `spring.ts` (`SpringState`). -/
structure SpringState where
  position : ℚ
  velocity : ℚ
deriving DecidableEq, Repr

/-- Function `createSpringState` from `spring.ts`: given position, zero velocity. -/
def createSpringState (initial : ℚ) : SpringState :=
  { position := initial, velocity := 0 }

/-- Function `stepSpring` from `spring.ts`: one semi-implicit Euler step of the
damped harmonic oscillator. -/
def stepSpring (state : SpringState) (target : ℚ) (config : SpringConfig)
    (dt : ℚ) : SpringState :=
  let displacement := state.position - target
  let springForce := -config.stiffness * displacement
  let dampingForce := -config.damping * state.velocity
  let acceleration := (springForce + dampingForce) / config.mass
  let newVelocity := state.velocity + acceleration * dt
  let newPosition := state.position + newVelocity * dt
  { position := newPosition, velocity := newVelocity }

/-- Function `isSpringSettled` from `spring.ts`: both displacement and velocity
below the threshold in absolute value. -/
def isSpringSettled (state : SpringState) (target : ℚ) (threshold : ℚ) : Bool :=
  decide (|state.position - target| < threshold) &&
    decide (|state.velocity| < threshold)

/-- Two-dimensional spring state, from `spring.ts` (`Spring2DState`). -/
structure Spring2DState where
  x : SpringState
  y : SpringState
deriving DecidableEq, Repr

/-- Function `createSpring2D` from `spring.ts`. -/
def createSpring2D (x y : ℚ) : Spring2DState :=
  { x := createSpringState x, y := createSpringState y }

/-- Function `stepSpring2D` from `spring.ts`. -/
def stepSpring2D (state : Spring2DState) (targetX targetY : ℚ)
    (config : SpringConfig) (dt : ℚ) : Spring2DState :=
  { x := stepSpring state.x targetX config dt
    y := stepSpring state.y targetY config dt }

/-- Function `isSpring2DSettled` from `spring.ts`. -/
def isSpring2DSettled (state : Spring2DState) (targetX targetY : ℚ)
    (threshold : ℚ) : Bool :=
  isSpringSettled state.x targetX threshold &&
    isSpringSettled state.y targetY threshold

/-- Result record of `calculateScale`, from `CursorOverlay.tsx`. -/
structure ScaleResult where
  scale : ℚ
  offsetX : ℚ
  offsetY : ℚ
deriving DecidableEq, Repr

/-- Function `calculateScale` from `CursorOverlay.tsx`: fit the video into the
container preserving aspect ratio, centering it; guarded against zero
video dimensions. -/
def calculateScale (videoWidth videoHeight containerWidth containerHeight : ℚ) :
    ScaleResult :=
  if videoWidth = 0 ∨ videoHeight = 0 then
    { scale := 1, offsetX := 0, offsetY := 0 }
  else
    let scaleX := containerWidth / videoWidth
    let scaleY := containerHeight / videoHeight
    let scale := min scaleX scaleY
    let scaledWidth := videoWidth * scale
    let scaledHeight := videoHeight * scale
    let offsetX := (containerWidth - scaledWidth) / 2
    let offsetY := (containerHeight - scaledHeight) / 2
    { scale := scale, offsetX := offsetX, offsetY := offsetY }

/-- Raw mouse movement event, from `cursorSmoothing.ts` (`MouseMoveEvent`). -/
structure MouseMoveEvent where
  x : ℚ
  y : ℚ
  cursorId : String
  processTimeMs : ℚ
deriving DecidableEq, Repr

instance : Inhabited MouseMoveEvent := ⟨⟨0, 0, "", 0⟩⟩

/-- Smoothed cursor position, from `cursorSmoothing.ts` (`SmoothedPosition`). -/
structure SmoothedPosition where
  x : ℚ
  y : ℚ
  rawX : ℚ
  rawY : ℚ
  cursorId : String
deriving DecidableEq, Repr

instance : Inhabited SmoothedPosition := ⟨⟨0, 0, 0, 0, ""⟩⟩

/-- Constant `DEFAULT_TELEPORT_THRESHOLD` from `cursorSmoothing.ts`. -/
def DEFAULT_TELEPORT_THRESHOLD : ℚ := 500

/-- Exact rational characterisation of `Math.sqrt d > t` for a
nonnegative radicand `d`: true when `t` is negative (a square root is
nonnegative), and otherwise exactly when `t * t < d`. -/
def sqrtGtQ (d t : ℚ) : Bool :=
  if t < 0 then true else decide (t * t < d)

/-- The `CursorSmoother` instance state, from `cursorSmoothing.ts`:
its four private fields. -/
structure CursorSmoother where
  spring : Spring2DState
  config : SpringConfig
  lastRawPosition : Option (ℚ × ℚ)
  teleportThreshold : ℚ
deriving DecidableEq, Repr

/-- The `CursorSmoother` constructor: spring at the origin with zero
velocity, no previous raw position. -/
def mkCursorSmoother (config : SpringConfig) (teleportThreshold : ℚ) :
    CursorSmoother :=
  { spring := createSpring2D 0 0
    config := config
    lastRawPosition := none
    teleportThreshold := teleportThreshold }

/-- Method `CursorSmoother.update` from `cursorSmoothing.ts`: teleport check
against the previous raw position, then one 2-D spring step toward the
raw sample; returns the new instance state and the returned
`SmoothedPosition`. -/
def CursorSmoother.update (s : CursorSmoother) (raw : MouseMoveEvent)
    (dt : ℚ) : CursorSmoother × SmoothedPosition :=
  let spring1 :=
    match s.lastRawPosition with
    | some p =>
      let dx := raw.x - p.1
      let dy := raw.y - p.2
      if sqrtGtQ (dx * dx + dy * dy) s.teleportThreshold then
        createSpring2D raw.x raw.y
      else
        s.spring
    | none => s.spring
  let spring2 := stepSpring2D spring1 raw.x raw.y s.config dt
  ({ s with spring := spring2, lastRawPosition := some (raw.x, raw.y) },
    { x := spring2.x.position
      y := spring2.y.position
      rawX := raw.x
      rawY := raw.y
      cursorId := raw.cursorId })

/-- Method `CursorSmoother.reset` from `cursorSmoothing.ts`: spring moved to
the given position with zero velocity; the previous raw position is set
to that position. -/
def CursorSmoother.reset (s : CursorSmoother) (x y : ℚ) : CursorSmoother :=
  { s with spring := createSpring2D x y, lastRawPosition := some (x, y) }

/-- The `while` loop of `smoothMouseMoves` advancing `rawIndex`: move
to the next raw sample as long as one exists with
`processTimeMs ≤ frameTime`. -/
def advanceIdx (moves : List MouseMoveEvent) (frameTime : ℚ) (i : ℕ) : ℕ :=
  if h : i + 1 < moves.length ∧
      (moves.getD (i + 1) default).processTimeMs ≤ frameTime then
    advanceIdx moves frameTime (i + 1)
  else i
termination_by moves.length - i
decreasing_by
  have := h.1
  omega

/-- The `for` loop of `smoothMouseMoves`: `rem` frames remain, the next
frame index is `frame`, the current `rawIndex` is `idx` and the smoother
state is `sm`.  Each iteration advances `rawIndex`, builds the event
with the frame's time, and updates the smoother with
`dt = frameDurationMs / 1000`. -/
def smoothLoop (moves : List MouseMoveEvent) (frameDur : ℚ) :
    ℕ → ℕ → ℕ → CursorSmoother → List SmoothedPosition
  | 0, _, _, _ => []
  | rem + 1, frame, idx, sm =>
    let frameTime := (frame : ℚ) * frameDur
    let idx2 := advanceIdx moves frameTime idx
    let raw := moves.getD idx2 default
    let dt := frameDur / 1000
    let step := sm.update ⟨raw.x, raw.y, raw.cursorId, frameTime⟩ dt
    step.2 :: smoothLoop moves frameDur rem (frame + 1) idx2 step.1

/-- The smoother `smoothMouseMoves` starts its loop with: a fresh
`CursorSmoother` (default teleport threshold) reset to the first raw
sample's position. -/
def batchInitSmoother (m0 : MouseMoveEvent) (config : SpringConfig) :
    CursorSmoother :=
  (mkCursorSmoother config DEFAULT_TELEPORT_THRESHOLD).reset m0.x m0.y

/-- Function `smoothMouseMoves` from `cursorSmoothing.ts`: batch resampling of a
raw sample stream at `outputFps`. -/
def smoothMouseMoves (moves : List MouseMoveEvent) (config : SpringConfig)
    (outputFps : ℚ) : List SmoothedPosition :=
  match moves with
  | [] => []
  | m0 :: rest =>
    let frameDur := 1000 / outputFps
    let totalDur := (rest.getLastD m0).processTimeMs
    let frameCount := max 1 (Int.toNat ⌈totalDur / frameDur⌉)
    smoothLoop (m0 :: rest) frameDur frameCount 0 0 (batchInitSmoother m0 config)

/-- The per-frame target indices chosen by the `for` loop of
`smoothMouseMoves`, as a list: starting from `rawIndex = idx` at frame
`frame`, the index selected for each of the `rem` remaining frames. -/
def batchIdxList (moves : List MouseMoveEvent) (frameDur : ℚ) :
    ℕ → ℕ → ℕ → List ℕ
  | 0, _, _ => []
  | rem + 1, frame, idx =>
    let idx2 := advanceIdx moves ((frame : ℚ) * frameDur) idx
    idx2 :: batchIdxList moves frameDur rem (frame + 1) idx2

/-- Helper for the spec-side target selection: scan the stream in order,
remembering the index of the most recently seen sample whose
`processTimeMs ≤ frameTime`; `k` is the index of the head of `l` in the
full stream and `acc` the best index seen so far. -/
def lastIdxLeAux (frameTime : ℚ) : List MouseMoveEvent → ℕ → ℕ → ℕ
  | [], _, acc => acc
  | m :: rest, k, acc =>
    lastIdxLeAux frameTime rest (k + 1)
      (if m.processTimeMs ≤ frameTime then k else acc)

/-- Spec-side target selection ("nearest-preceding-sample policy"): the
index of the most recently seen raw sample whose
`processTimeMs ≤ frameTime`, falling back to the first sample when no
sample qualifies. -/
def specTargetIdx (moves : List MouseMoveEvent) (frameTime : ℚ) : ℕ :=
  lastIdxLeAux frameTime moves 0 0

/-- Spec-side trajectory loop: per remaining frame, update the smoother
once with the frame's nearest-preceding target sample itself and fixed
`dt = frameDur / 1000`. -/
def specTrajectoryLoop (moves : List MouseMoveEvent) (frameDur : ℚ) :
    ℕ → ℕ → CursorSmoother → List SmoothedPosition
  | 0, _, _ => []
  | rem + 1, frame, sm =>
    let frameTime := (frame : ℚ) * frameDur
    let raw := moves.getD (specTargetIdx moves frameTime) default
    let step := sm.update raw (frameDur / 1000)
    step.2 :: specTrajectoryLoop moves frameDur rem (frame + 1) step.1

/-- Trajectory described by the spec for the incremental mode driven on
the batch frame grid: a fresh `CursorSmoother`, reset to the first
sample's position, updated once per output frame with that frame's
nearest-preceding target sample and fixed
`dt = (1000 / outputFps) / 1000` seconds. -/
def specTrajectory (moves : List MouseMoveEvent) (config : SpringConfig)
    (outputFps : ℚ) : List SmoothedPosition :=
  match moves with
  | [] => []
  | m0 :: rest =>
    let frameDur := 1000 / outputFps
    let totalDur := (rest.getLastD m0).processTimeMs
    let frameCount := max 1 (Int.toNat ⌈totalDur / frameDur⌉)
    specTrajectoryLoop (m0 :: rest) frameDur frameCount 0
      (batchInitSmoother m0 config)

/-- The stream's `processTimeMs` values are non-decreasing in stream
order (stated over `List.getD`). -/
def TimeSorted (moves : List MouseMoveEvent) : Prop :=
  ∀ i j : ℕ, i ≤ j → j < moves.length →
    (moves.getD i default).processTimeMs ≤ (moves.getD j default).processTimeMs

/-- Iterated `stepSpring` with a fixed target, configuration and time
step. -/
def springIter (target : ℚ) (config : SpringConfig) (dt : ℚ) :
    ℕ → SpringState → SpringState
  | 0, s => s
  | n + 1, s => stepSpring (springIter target config dt n s) target config dt

/-- Modelled from the spec: the spec's `ConfigError` for invalid spring
configuration ("invalid configuration (non-positive stiffness or mass)
fails with a ConfigError before any stepping occurs"); no such error
exists anywhere in the source. -/
inductive ConfigError where
  | invalidSpringConfig
deriving DecidableEq, Repr

/-- Modelled from the spec: a checked stepping operation that fails with
a `ConfigError` on non-positive stiffness or mass before any stepping
occurs, and otherwise performs `stepSpring`.  The source `stepSpring`
performs no such validation. -/
def stepSpringChecked (state : SpringState) (target : ℚ)
    (config : SpringConfig) (dt : ℚ) : Except ConfigError SpringState :=
  if config.stiffness ≤ 0 ∨ config.mass ≤ 0 then
    Except.error ConfigError.invalidSpringConfig
  else
    Except.ok (stepSpring state target config dt)

/-- The index of the raw sample used by `smoothMouseMoves` as the
target of output frame `f`: the value of `rawIndex` during frame `f` of
its loop. -/
def batchTargetIdx (moves : List MouseMoveEvent) (outputFps : ℚ) (f : ℕ) : ℕ :=
  match moves with
  | [] => 0
  | m0 :: rest =>
    (batchIdxList (m0 :: rest) (1000 / outputFps)
      (max 1 (Int.toNat
        ⌈(rest.getLastD m0).processTimeMs / (1000 / outputFps)⌉)) 0 0).getD f 0

/-- A four-sample stream whose `processTimeMs` values are not
monotone: sample 2 (`t = 10`) arrives after sample 1 (`t = 60`). -/
def cexStream : List MouseMoveEvent :=
  [⟨0, 0, "a", 0⟩, ⟨100, 0, "a", 60⟩, ⟨7, 0, "a", 10⟩, ⟨50, 0, "a", 100⟩]

/-- The six states of the period-6 orbit of the undamped spring
`stiffness = 1, damping = 0, mass = 1` stepped with `dt = 1` from rest
at position `0` toward target `1`. -/
def undampedOrbit : List SpringState :=
  [⟨0, 0⟩, ⟨1, 1⟩, ⟨2, 1⟩, ⟨2, 0⟩, ⟨1, -1⟩, ⟨0, -1⟩]

/-- Length of the `smoothMouseMoves` frame loop output: one element per
remaining frame. -/
theorem smoothLoop_length (moves : List MouseMoveEvent) (frameDur : ℚ) :
    ∀ rem frame idx sm,
      (smoothLoop moves frameDur rem frame idx sm).length = rem := by
  intro rem
  induction rem with
  | zero => intro frame idx sm; rfl
  | succ rem ih =>
    intro frame idx sm
    simp only [smoothLoop, List.length_cons, ih]

/-- C2: teleport invariant.  With a recorded previous raw position at
Euclidean distance beyond the teleport threshold from the new sample,
`update` returns exactly the new sample's coordinates and leaves both
axis velocities at zero. -/
theorem update_teleport_resets (s : CursorSmoother) (raw : MouseMoveEvent)
    (dt : ℚ) (p : ℚ × ℚ) (hprev : s.lastRawPosition = some p)
    (hfar : sqrtGtQ ((raw.x - p.1) * (raw.x - p.1) +
      (raw.y - p.2) * (raw.y - p.2)) s.teleportThreshold = true) :
    (s.update raw dt).2.x = raw.x ∧ (s.update raw dt).2.y = raw.y ∧
    (s.update raw dt).1.spring.x.velocity = 0 ∧
    (s.update raw dt).1.spring.y.velocity = 0 := by
  simp only [CursorSmoother.update, hprev, hfar, if_true]
  simp [stepSpring2D, stepSpring, createSpring2D, createSpringState]

/-- Witness for C2: a concrete teleport (jump of 1000 > threshold 500)
lands exactly on the new sample with zero velocity. -/
theorem update_teleport_resets_witness :
    (CursorSmoother.update
      ⟨createSpring2D 0 0, DEFAULT_SPRING_CONFIG, some (0, 0),
        DEFAULT_TELEPORT_THRESHOLD⟩ ⟨1000, 0, "c", 0⟩ (1 / 30)).2.x = 1000 := by
  exact (update_teleport_resets
    ⟨createSpring2D 0 0, DEFAULT_SPRING_CONFIG, some (0, 0),
      DEFAULT_TELEPORT_THRESHOLD⟩ ⟨1000, 0, "c", 0⟩ (1 / 30) (0, 0) rfl
    (by norm_num [sqrtGtQ, DEFAULT_TELEPORT_THRESHOLD])).1

/-- C3 counterexample: for the single-sample stream at
`processTimeMs = 0`, the batch output has one frame but
`ceil(lastSample.processTimeMs / (1000 / fps))` is `0`. -/
theorem frame_count_law_counterexample :
    ¬(((smoothMouseMoves [⟨0, 0, "c", 0⟩] DEFAULT_SPRING_CONFIG 30).length : ℤ)
      = ⌈((⟨0, 0, "c", 0⟩ : MouseMoveEvent).processTimeMs / (1000 / 30) : ℚ)⌉) := by
  simp only [smoothMouseMoves, smoothLoop_length, List.getLastD]
  norm_num

/-- C3 amended: for every non-empty stream, the batch output length is
`max 1 (ceil(lastSample.processTimeMs / (1000 / fps)))` — the code
clamps the frame count from below at one frame. -/
theorem frame_count_law (m0 : MouseMoveEvent) (rest : List MouseMoveEvent)
    (config : SpringConfig) (outputFps : ℚ) :
    (smoothMouseMoves (m0 :: rest) config outputFps).length =
      max 1 (Int.toNat ⌈(rest.getLastD m0).processTimeMs / (1000 / outputFps)⌉) := by
  simp only [smoothMouseMoves, smoothLoop_length]

/-- C7 counterexample: with the invalid configuration
`stiffness = -1, mass = 1`, the source `stepSpring` performs a step
(returning the stepped state) while the spec's checked operation fails
with a `ConfigError`. -/
theorem config_validation_counterexample :
    stepSpring ⟨0, 0⟩ 1 ⟨-1, 0, 1⟩ 1 = ⟨-1, -1⟩ ∧
    stepSpringChecked ⟨0, 0⟩ 1 ⟨-1, 0, 1⟩ 1 =
      Except.error ConfigError.invalidSpringConfig := by
  constructor
  · norm_num [stepSpring, SpringState.mk.injEq]
  · rw [stepSpringChecked, if_pos (Or.inl (by norm_num))]

/-- C7 amended: the code performs no configuration validation — for
every configuration with non-positive stiffness or non-positive mass,
`stepSpring` still performs the semi-implicit Euler step, and the
`CursorSmoother` constructor still succeeds with its spring at the
origin. -/
theorem stepSpring_no_validation (config : SpringConfig) (state : SpringState)
    (target dt : ℚ) (h : config.stiffness ≤ 0 ∨ config.mass ≤ 0) :
    stepSpring state target config dt =
      { velocity := state.velocity +
          ((-config.stiffness * (state.position - target) +
            -config.damping * state.velocity) / config.mass) * dt
        position := state.position +
          (state.velocity +
            ((-config.stiffness * (state.position - target) +
              -config.damping * state.velocity) / config.mass) * dt) * dt } ∧
    (mkCursorSmoother config DEFAULT_TELEPORT_THRESHOLD).spring =
      createSpring2D 0 0 :=
  ⟨rfl, rfl⟩

/-- Witness for C7's amended theorem at the invalid configuration
`stiffness = -1, mass = 1`. -/
theorem stepSpring_no_validation_witness :
    stepSpring ⟨2, 3⟩ 1 ⟨-1, 0, 1⟩ 1 =
      { velocity := 3 + ((-(-1 : ℚ) * ((2 : ℚ) - 1) + -(0 : ℚ) * 3) / 1) * 1
        position := 2 + (3 + ((-(-1 : ℚ) * ((2 : ℚ) - 1) + -(0 : ℚ) * 3) / 1) * 1) * 1 } := by
  exact (stepSpring_no_validation ⟨-1, 0, 1⟩ ⟨2, 3⟩ 1 1 (Or.inl (by norm_num))).1

/-- C8 counterexample: a freshly constructed `CursorSmoother` processing
its first raw sample at `x = 1000` from `dt = 1/30` returns `8000/9`,
not `1000` — the spring started at the origin, not at the first raw
sample; after an explicit `reset` to the sample it returns exactly
`1000`. -/
theorem initial_state_counterexample :
    (CursorSmoother.update
      (mkCursorSmoother DEFAULT_SPRING_CONFIG DEFAULT_TELEPORT_THRESHOLD)
      ⟨1000, 0, "c", 0⟩ (1 / 30)).2.x = 8000 / 9 ∧
    ((8000 : ℚ) / 9 ≠ 1000) ∧
    (CursorSmoother.update
      ((mkCursorSmoother DEFAULT_SPRING_CONFIG DEFAULT_TELEPORT_THRESHOLD).reset
        1000 0) ⟨1000, 0, "c", 0⟩ (1 / 30)).2.x = 1000 := by
  refine ⟨?_, by norm_num, ?_⟩
  · norm_num [CursorSmoother.update, mkCursorSmoother, createSpring2D,
      createSpringState, stepSpring2D, stepSpring, DEFAULT_SPRING_CONFIG]
  · norm_num [CursorSmoother.update, CursorSmoother.reset, mkCursorSmoother,
      createSpring2D, createSpringState, stepSpring2D, stepSpring,
      DEFAULT_SPRING_CONFIG, DEFAULT_TELEPORT_THRESHOLD, sqrtGtQ]

/-- C8 amended: batch mode starts the spring at the first raw sample's
position with zero velocity (via `reset`); a freshly constructed
`CursorSmoother` instead starts at the origin `(0, 0)` with zero
velocity, so incremental mode matches only after an explicit reset to
the first sample. -/
theorem initial_state_amended (config : SpringConfig) (th : ℚ)
    (m0 : MouseMoveEvent) :
    (mkCursorSmoother config th).spring.x.position = 0 ∧
    (mkCursorSmoother config th).spring.y.position = 0 ∧
    (mkCursorSmoother config th).spring.x.velocity = 0 ∧
    (mkCursorSmoother config th).spring.y.velocity = 0 ∧
    (mkCursorSmoother config th).lastRawPosition = none ∧
    (batchInitSmoother m0 config).spring.x.position = m0.x ∧
    (batchInitSmoother m0 config).spring.y.position = m0.y ∧
    (batchInitSmoother m0 config).spring.x.velocity = 0 ∧
    (batchInitSmoother m0 config).spring.y.velocity = 0 ∧
    (batchInitSmoother m0 config).lastRawPosition = some (m0.x, m0.y) :=
  ⟨rfl, rfl, rfl, rfl, rfl, rfl, rfl, rfl, rfl, rfl⟩

/-- C9: edge cases of batch resampling — the empty stream yields the
empty output, and a single-sample stream yields at least one frame whose
first frame carries the sample's coordinates as both the smoothed and
the raw position (the spring rests on its target). -/
theorem smoothMouseMoves_edge_cases (s : MouseMoveEvent)
    (config : SpringConfig) (outputFps : ℚ) :
    smoothMouseMoves [] config outputFps = [] ∧
    1 ≤ (smoothMouseMoves [s] config outputFps).length ∧
    (smoothMouseMoves [s] config outputFps).head? =
      some ⟨s.x, s.y, s.x, s.y, s.cursorId⟩ := by
  refine ⟨rfl, ?_, ?_⟩
  · rw [smoothMouseMoves]
    rw [smoothLoop_length]
    exact Nat.le_max_left _ _
  · rw [smoothMouseMoves]
    obtain ⟨k, hk⟩ := Nat.exists_eq_succ_of_ne_zero
      (Nat.one_le_iff_ne_zero.mp (Nat.le_max_left 1
        (Int.toNat ⌈(List.getLastD [] s).processTimeMs / (1000 / outputFps)⌉)))
    rw [hk]
    rw [smoothLoop]
    simp only [List.head?_cons, Option.some.injEq]
    have hadv : advanceIdx [s] ((0 : ℕ) * (1000 / outputFps)) 0 = 0 := by
      rw [advanceIdx]
      simp
    rw [hadv]
    simp only [List.getD, List.get?, Option.getD_some]
    simp [CursorSmoother.update, batchInitSmoother, CursorSmoother.reset,
      mkCursorSmoother, sqrtGtQ, DEFAULT_TELEPORT_THRESHOLD,
      stepSpring2D, stepSpring, createSpring2D, createSpringState]

/-- Lemma: `update` ignores the event's `processTimeMs`: both the returned
frame and the successor state depend only on the event's coordinates
and cursor id. -/
theorem update_congr (s : CursorSmoother) (e1 e2 : MouseMoveEvent) (dt : ℚ)
    (hx : e1.x = e2.x) (hy : e1.y = e2.y) (hc : e1.cursorId = e2.cursorId) :
    s.update e1 dt = s.update e2 dt := by
  obtain ⟨x1, y1, c1, t1⟩ := e1
  obtain ⟨x2, y2, c2, t2⟩ := e2
  simp only at hx hy hc
  subst hx
  subst hy
  subst hc
  rfl

/-- The raw X coordinate of an `update` output is the event's X
coordinate, passed through unchanged. -/
theorem update_rawX (s : CursorSmoother) (e : MouseMoveEvent) (dt : ℚ) :
    (s.update e dt).2.rawX = e.x := rfl

/-- The raw Y coordinate of an `update` output is the event's Y
coordinate, passed through unchanged. -/
theorem update_rawY (s : CursorSmoother) (e : MouseMoveEvent) (dt : ℚ) :
    (s.update e dt).2.rawY = e.y := rfl

/-- Characterisation of the spec-side scan `lastIdxLeAux`: either no
element of `l` qualifies and the accumulator is returned, or the scan
returns `k` plus the position of the last qualifying element of `l`. -/
theorem lastIdxLeAux_spec (ft : ℚ) :
    ∀ (l : List MouseMoveEvent) (k acc : ℕ),
      (lastIdxLeAux ft l k acc = acc ∧
        ∀ j, j < l.length → ¬((l.getD j default).processTimeMs ≤ ft)) ∨
      (∃ j, j < l.length ∧ (l.getD j default).processTimeMs ≤ ft ∧
        lastIdxLeAux ft l k acc = k + j ∧
        ∀ j2, j < j2 → j2 < l.length →
          ¬((l.getD j2 default).processTimeMs ≤ ft)) := by
  intro l
  induction l with
  | nil =>
    intro k acc
    left
    refine ⟨rfl, ?_⟩
    intro j hj
    simp at hj
  | cons m rest ih =>
    intro k acc
    by_cases hm : m.processTimeMs ≤ ft
    · rcases ih (k + 1) k with ⟨heq, hnone⟩ | ⟨j, hj, hjle, heq, hmax⟩
      · right
        refine ⟨0, by simp, by simpa using hm, ?_, ?_⟩
        · rw [lastIdxLeAux, if_pos hm, heq]
          omega
        · intro j2 h0 hlen
          cases j2 with
          | zero => omega
          | succ j2' =>
            have := hnone j2' (by simpa using hlen)
            simpa using this
      · right
        refine ⟨j + 1, by simpa using hj, by simpa using hjle, ?_, ?_⟩
        · rw [lastIdxLeAux, if_pos hm, heq]
          omega
        · intro j2 hgt hlen
          cases j2 with
          | zero => omega
          | succ j2' =>
            have := hmax j2' (by omega) (by simpa using hlen)
            simpa using this
    · rcases ih (k + 1) acc with ⟨heq, hnone⟩ | ⟨j, hj, hjle, heq, hmax⟩
      · left
        refine ⟨?_, ?_⟩
        · rw [lastIdxLeAux, if_neg hm]
          exact heq
        · intro j2 hlen
          cases j2 with
          | zero => simpa using hm
          | succ j2' =>
            have := hnone j2' (by simpa using hlen)
            simpa using this
      · right
        refine ⟨j + 1, by simpa using hj, by simpa using hjle, ?_, ?_⟩
        · rw [lastIdxLeAux, if_neg hm, heq]
          omega
        · intro j2 hgt hlen
          cases j2 with
          | zero => omega
          | succ j2' =>
            have := hmax j2' (by omega) (by simpa using hlen)
            simpa using this

/-- The spec-side target index is within bounds for a non-empty
stream. -/
theorem specTargetIdx_lt_length (moves : List MouseMoveEvent)
    (hne : moves ≠ []) (ft : ℚ) :
    specTargetIdx moves ft < moves.length := by
  rcases lastIdxLeAux_spec ft moves 0 0 with ⟨heq, _⟩ | ⟨j, hj, _, heq, _⟩
  · rw [specTargetIdx, heq]
    exact List.length_pos.mpr hne
  · rw [specTargetIdx, heq]
    simpa using hj

/-- Every qualifying index is at most the spec-side target index. -/
theorem le_specTargetIdx (moves : List MouseMoveEvent) (ft : ℚ) (j : ℕ)
    (hj : j < moves.length)
    (hle : (moves.getD j default).processTimeMs ≤ ft) :
    j ≤ specTargetIdx moves ft := by
  rcases lastIdxLeAux_spec ft moves 0 0 with ⟨_, hnone⟩ | ⟨j0, _, _, heq, hmax⟩
  · exact absurd hle (hnone j hj)
  · rw [specTargetIdx, heq]
    by_contra hcon
    push_neg at hcon
    exact hmax j (by omega) hj hle

/-- If some sample qualifies, the one selected by the spec-side policy
qualifies. -/
theorem specTargetIdx_le_ft (moves : List MouseMoveEvent) (ft : ℚ)
    (hq : ∃ j, j < moves.length ∧
      (moves.getD j default).processTimeMs ≤ ft) :
    (moves.getD (specTargetIdx moves ft) default).processTimeMs ≤ ft := by
  rcases lastIdxLeAux_spec ft moves 0 0 with ⟨_, hnone⟩ | ⟨j0, hj0, hle, heq, _⟩
  · obtain ⟨j, hj, hjle⟩ := hq
    exact absurd hjle (hnone j hj)
  · rw [specTargetIdx, heq]
    simpa using hle

/-- No sample after the spec-side target index qualifies. -/
theorem specTargetIdx_maximal (moves : List MouseMoveEvent) (ft : ℚ) (j : ℕ)
    (hgt : specTargetIdx moves ft < j) (hj : j < moves.length) :
    ¬((moves.getD j default).processTimeMs ≤ ft) := by
  rcases lastIdxLeAux_spec ft moves 0 0 with ⟨heq, hnone⟩ | ⟨j0, _, _, heq, hmax⟩
  · exact hnone j hj
  · rw [specTargetIdx, heq] at hgt
    exact hmax j (by omega) hj

/-- The spec-side target index is monotone in the frame time. -/
theorem specTargetIdx_mono (moves : List MouseMoveEvent) {ft1 ft2 : ℚ}
    (hft : ft1 ≤ ft2) :
    specTargetIdx moves ft1 ≤ specTargetIdx moves ft2 := by
  rcases lastIdxLeAux_spec ft1 moves 0 0 with ⟨heq, _⟩ | ⟨j0, hj0, hle, heq, _⟩
  · rw [specTargetIdx, heq]
    exact Nat.zero_le _
  · rw [specTargetIdx, heq]
    simpa using le_specTargetIdx moves ft2 j0 hj0 (le_trans hle hft)

/-- A positive spec-side target index only arises from a qualifying
sample. -/
theorem specTargetIdx_pos_qualifies (moves : List MouseMoveEvent) (ft : ℚ)
    (hpos : 0 < specTargetIdx moves ft) :
    (moves.getD (specTargetIdx moves ft) default).processTimeMs ≤ ft := by
  rcases lastIdxLeAux_spec ft moves 0 0 with ⟨heq, _⟩ | ⟨j0, hj0, hle, heq, _⟩
  · rw [specTargetIdx, heq] at hpos
    omega
  · rw [specTargetIdx, heq]
    simpa using hle

/-- For a non-decreasing stream, the `while` scan of `smoothMouseMoves`
started at or below the spec-side target index reaches exactly the
spec-side target index. -/
theorem advanceIdx_eq_specTargetIdx (moves : List MouseMoveEvent)
    (hs : TimeSorted moves) (hne : moves ≠ []) (ft : ℚ) :
    ∀ i, i ≤ specTargetIdx moves ft →
      advanceIdx moves ft i = specTargetIdx moves ft := by
  suffices H : ∀ d i, specTargetIdx moves ft - i = d →
      i ≤ specTargetIdx moves ft →
      advanceIdx moves ft i = specTargetIdx moves ft from
    fun i hi => H _ i rfl hi
  intro d
  induction d with
  | zero =>
    intro i hd hi
    have hie : i = specTargetIdx moves ft := by omega
    subst hie
    rw [advanceIdx]
    split
    case isTrue hcond =>
      exact absurd hcond.2 (specTargetIdx_maximal moves ft _
        (by omega) hcond.1)
    case isFalse hcond => rfl
  | succ d ihd =>
    intro i hd hi
    have hilt : i < specTargetIdx moves ft := by omega
    have hlen : i + 1 < moves.length := by
      have := specTargetIdx_lt_length moves hne ft
      omega
    have hqual : (moves.getD (specTargetIdx moves ft) default).processTimeMs
        ≤ ft := specTargetIdx_pos_qualifies moves ft (by omega)
    have hcond : (moves.getD (i + 1) default).processTimeMs ≤ ft := by
      refine le_trans ?_ hqual
      exact hs (i + 1) (specTargetIdx moves ft) (by omega)
        (specTargetIdx_lt_length moves hne ft)
    rw [advanceIdx, dif_pos ⟨hlen, hcond⟩]
    exact ihd (i + 1) (by omega) (by omega)

/-- The frame loop of `smoothMouseMoves` and the spec-side trajectory
loop agree, frame for frame, whenever the stream is non-decreasing, the
frame duration is nonnegative and the carried `rawIndex` is at most the
current frame's spec-side target index. -/
theorem smoothLoop_eq_specTrajectoryLoop (moves : List MouseMoveEvent)
    (hs : TimeSorted moves) (hne : moves ≠ []) (frameDur : ℚ)
    (hfd : 0 ≤ frameDur) :
    ∀ (rem frame idx : ℕ) (sm : CursorSmoother),
      idx ≤ specTargetIdx moves ((frame : ℚ) * frameDur) →
      smoothLoop moves frameDur rem frame idx sm =
        specTrajectoryLoop moves frameDur rem frame sm := by
  intro rem
  induction rem with
  | zero => intro frame idx sm _; rfl
  | succ rem ih =>
    intro frame idx sm hinv
    have hadv : advanceIdx moves ((frame : ℚ) * frameDur) idx =
        specTargetIdx moves ((frame : ℚ) * frameDur) :=
      advanceIdx_eq_specTargetIdx moves hs hne _ idx hinv
    have hmono : specTargetIdx moves ((frame : ℚ) * frameDur) ≤
        specTargetIdx moves (((frame + 1 : ℕ) : ℚ) * frameDur) := by
      refine specTargetIdx_mono moves ?_
      have hc : ((frame : ℚ)) ≤ ((frame + 1 : ℕ) : ℚ) := by
        push_cast
        linarith
      exact mul_le_mul_of_nonneg_right hc hfd
    simp only [smoothLoop, specTrajectoryLoop, hadv]
    rw [update_congr _ _ (moves.getD
      (specTargetIdx moves ((frame : ℚ) * frameDur)) default) _ rfl rfl rfl]
    exact congrArg _ (ih (frame + 1) _ _ hmono)

/-- Each entry of `batchIdxList` is the spec-side target index of its
frame, for non-decreasing streams, nonnegative frame duration and a
carried `rawIndex` at most the current frame's spec-side target
index. -/
theorem batchIdxList_getD (moves : List MouseMoveEvent)
    (hs : TimeSorted moves) (hne : moves ≠ []) (frameDur : ℚ)
    (hfd : 0 ≤ frameDur) :
    ∀ (rem frame idx : ℕ),
      idx ≤ specTargetIdx moves ((frame : ℚ) * frameDur) →
      ∀ k, k < rem →
        (batchIdxList moves frameDur rem frame idx).getD k 0 =
          specTargetIdx moves (((frame + k : ℕ) : ℚ) * frameDur) := by
  intro rem
  induction rem with
  | zero => intro frame idx _ k hk; omega
  | succ rem ih =>
    intro frame idx hinv k hk
    have hadv : advanceIdx moves ((frame : ℚ) * frameDur) idx =
        specTargetIdx moves ((frame : ℚ) * frameDur) :=
      advanceIdx_eq_specTargetIdx moves hs hne _ idx hinv
    have hmono : specTargetIdx moves ((frame : ℚ) * frameDur) ≤
        specTargetIdx moves (((frame + 1 : ℕ) : ℚ) * frameDur) := by
      refine specTargetIdx_mono moves ?_
      have hc : ((frame : ℚ)) ≤ ((frame + 1 : ℕ) : ℚ) := by
        push_cast
        linarith
      exact mul_le_mul_of_nonneg_right hc hfd
    simp only [batchIdxList, hadv]
    cases k with
    | zero =>
      simp only [List.getD_cons_zero, Nat.add_zero]
    | succ k' =>
      simp only [List.getD_cons_succ]
      have := ih (frame + 1) _ hmono k' (by omega)
      rw [this]
      have harith : frame + 1 + k' = frame + (k' + 1) := by omega
      rw [harith]

/-- The raw coordinates of each frame of the `smoothMouseMoves` loop
output are the coordinates of the raw sample at that frame's
`batchIdxList` entry. -/
theorem smoothLoop_raw_coords (moves : List MouseMoveEvent) (frameDur : ℚ) :
    ∀ (rem frame idx : ℕ) (sm : CursorSmoother) (k : ℕ), k < rem →
      ((smoothLoop moves frameDur rem frame idx sm).getD k default).rawX =
        (moves.getD
          ((batchIdxList moves frameDur rem frame idx).getD k 0) default).x ∧
      ((smoothLoop moves frameDur rem frame idx sm).getD k default).rawY =
        (moves.getD
          ((batchIdxList moves frameDur rem frame idx).getD k 0) default).y := by
  intro rem
  induction rem with
  | zero => intro _ _ _ k hk; omega
  | succ rem ih =>
    intro frame idx sm k hk
    simp only [smoothLoop, batchIdxList]
    cases k with
    | zero =>
      simp only [List.getD_cons_zero]
      exact ⟨rfl, rfl⟩
    | succ k' =>
      simp only [List.getD_cons_succ]
      exact ih (frame + 1) _ _ k' (by omega)

/-- C1 counterexample to the unrestricted claim: on a stream whose
`processTimeMs` values are not non-decreasing, the batch resampler and
the spec-described incremental trajectory disagree — the batch path's
`rawIndex` scan cannot move backwards, while the nearest-preceding
policy selects the later-arriving sample with the smaller timestamp. -/
theorem batch_incremental_agreement_counterexample :
    smoothMouseMoves cexStream DEFAULT_SPRING_CONFIG 20 ≠
      specTrajectory cexStream DEFAULT_SPRING_CONFIG 20 := by
  intro h
  have hlast : List.getLastD [(⟨100, 0, "a", 60⟩ : MouseMoveEvent),
      ⟨7, 0, "a", 10⟩, ⟨50, 0, "a", 100⟩] ⟨0, 0, "a", 0⟩ =
      ⟨50, 0, "a", 100⟩ := rfl
  have hceil : ⌈(((100 : ℚ)) / (1000 / 20))⌉ = 2 := by norm_num
  have hfc : max 1 (Int.toNat ⌈(((100 : ℚ)) / (1000 / 20))⌉) = 0 + 1 + 1 := by
    rw [hceil]
    rfl
  simp only [smoothMouseMoves, specTrajectory, cexStream, hlast] at h
  rw [hfc] at h
  simp only [smoothLoop, specTrajectoryLoop] at h
  have h2 := congrArg (fun l => ((l.tail.headD default).rawX)) h
  simp only [List.tail_cons, List.headD_cons, update_rawX] at h2
  have hc0 : ((0 : ℕ) : ℚ) * (1000 / 20) = 0 := by norm_num
  have hc1 : ((0 + 1 : ℕ) : ℚ) * (1000 / 20) = 50 := by norm_num
  rw [hc0, hc1] at h2
  have ha0 : advanceIdx [(⟨0, 0, "a", 0⟩ : MouseMoveEvent), ⟨100, 0, "a", 60⟩,
      ⟨7, 0, "a", 10⟩, ⟨50, 0, "a", 100⟩] 0 0 = 0 := by
    rw [advanceIdx]
    norm_num
  have ha1 : advanceIdx [(⟨0, 0, "a", 0⟩ : MouseMoveEvent), ⟨100, 0, "a", 60⟩,
      ⟨7, 0, "a", 10⟩, ⟨50, 0, "a", 100⟩] 50 0 = 0 := by
    rw [advanceIdx]
    norm_num
  have hspec : specTargetIdx [(⟨0, 0, "a", 0⟩ : MouseMoveEvent),
      ⟨100, 0, "a", 60⟩, ⟨7, 0, "a", 10⟩, ⟨50, 0, "a", 100⟩] 50 = 2 := by
    norm_num [specTargetIdx, lastIdxLeAux]
  rw [ha0, ha1, hspec] at h2
  norm_num at h2

/-- C1 amended: for every non-empty raw stream with NON-DECREASING
`processTimeMs` and positive output fps, the batch resampler
`smoothMouseMoves` equals, element for element, the trajectory obtained
by taking a fresh `CursorSmoother`, resetting it to the first sample's
position, and calling `update` once per output frame with that frame's
nearest-preceding target sample and fixed
`dt = (1000 / outputFps) / 1000` seconds. -/
theorem batch_incremental_agreement (m0 : MouseMoveEvent)
    (rest : List MouseMoveEvent) (config : SpringConfig) (outputFps : ℚ)
    (hs : TimeSorted (m0 :: rest)) (hfps : 0 < outputFps) :
    smoothMouseMoves (m0 :: rest) config outputFps =
      specTrajectory (m0 :: rest) config outputFps := by
  have hfd : (0 : ℚ) ≤ 1000 / outputFps := by positivity
  simp only [smoothMouseMoves, specTrajectory]
  exact smoothLoop_eq_specTrajectoryLoop (m0 :: rest) hs (by simp)
    (1000 / outputFps) hfd _ 0 0 _ (Nat.zero_le _)

/-- Witness for C1's amended theorem on a concrete two-sample
non-decreasing stream. -/
theorem batch_incremental_agreement_witness :
    smoothMouseMoves [⟨0, 0, "a", 0⟩, ⟨1, 2, "a", 40⟩]
        DEFAULT_SPRING_CONFIG 30 =
      specTrajectory [⟨0, 0, "a", 0⟩, ⟨1, 2, "a", 40⟩]
        DEFAULT_SPRING_CONFIG 30 := by
  refine batch_incremental_agreement ⟨0, 0, "a", 0⟩ [⟨1, 2, "a", 40⟩]
    DEFAULT_SPRING_CONFIG 30 ?_ (by norm_num)
  intro i j hij hj
  simp only [List.length_cons, List.length_nil] at hj
  interval_cases j
  · interval_cases i
    · exact le_refl _
  · interval_cases i
    · decide
    · exact le_refl _

/-- C5 counterexample to the unrestricted claim: on the (trivially
non-decreasing) single-sample stream at `processTimeMs = 5`, frame 0's
target sample has `processTimeMs = 5 > 0`, the frame's time. -/
theorem nearest_preceding_counterexample :
    ¬((([(⟨3, 4, "c", 5⟩ : MouseMoveEvent)]).getD
        (batchTargetIdx [⟨3, 4, "c", 5⟩] 30 0) default).processTimeMs ≤
      (0 : ℚ) * (1000 / 30)) := by
  have hceil : ⌈((5 : ℚ) / (1000 / 30))⌉ = 1 := by
    rw [Int.ceil_eq_iff] <;> norm_num
  have hfc : max 1 (Int.toNat ⌈((5 : ℚ) / (1000 / 30))⌉) = 0 + 1 := by
    rw [hceil]
    rfl
  have hb : batchTargetIdx [(⟨3, 4, "c", 5⟩ : MouseMoveEvent)] 30 0 = 0 := by
    simp only [batchTargetIdx, List.getLastD]
    rw [hfc]
    simp only [batchIdxList, List.getD_cons_zero]
    rw [advanceIdx]
    norm_num
  rw [hb]
  norm_num

/-- C5 amended: for a non-decreasing stream whose first sample has
`processTimeMs ≤ 0`, and positive output fps, every output frame's
target sample satisfies the nearest-preceding law: its `processTimeMs`
is at most the frame's time, no later raw sample with
`processTimeMs ≤` the frame's time exists, and the frame's raw
coordinates are exactly that sample's coordinates. -/
theorem nearest_preceding_sample_law (m0 : MouseMoveEvent)
    (rest : List MouseMoveEvent) (config : SpringConfig) (outputFps : ℚ)
    (hs : TimeSorted (m0 :: rest)) (hfps : 0 < outputFps)
    (h0 : m0.processTimeMs ≤ 0) (f : ℕ)
    (hf : f < (smoothMouseMoves (m0 :: rest) config outputFps).length) :
    ((m0 :: rest).getD (batchTargetIdx (m0 :: rest) outputFps f)
        default).processTimeMs ≤ (f : ℚ) * (1000 / outputFps) ∧
    (∀ j, batchTargetIdx (m0 :: rest) outputFps f < j →
      j < (m0 :: rest).length →
      ¬(((m0 :: rest).getD j default).processTimeMs ≤
        (f : ℚ) * (1000 / outputFps))) ∧
    ((smoothMouseMoves (m0 :: rest) config outputFps).getD f
        default).rawX =
      ((m0 :: rest).getD (batchTargetIdx (m0 :: rest) outputFps f)
        default).x ∧
    ((smoothMouseMoves (m0 :: rest) config outputFps).getD f
        default).rawY =
      ((m0 :: rest).getD (batchTargetIdx (m0 :: rest) outputFps f)
        default).y := by
  have hfd : (0 : ℚ) ≤ 1000 / outputFps := by positivity
  have hne : (m0 :: rest) ≠ [] := by simp
  have hflt : f < max 1 (Int.toNat
      ⌈(rest.getLastD m0).processTimeMs / (1000 / outputFps)⌉) := by
    rw [smoothMouseMoves, smoothLoop_length] at hf
    exact hf
  have hft0 : (0 : ℚ) ≤ (f : ℚ) * (1000 / outputFps) := by positivity
  have hidx : batchTargetIdx (m0 :: rest) outputFps f =
      specTargetIdx (m0 :: rest) ((f : ℚ) * (1000 / outputFps)) := by
    rw [batchTargetIdx]
    have := batchIdxList_getD (m0 :: rest) hs hne (1000 / outputFps) hfd
      (max 1 (Int.toNat
        ⌈(rest.getLastD m0).processTimeMs / (1000 / outputFps)⌉))
      0 0 (Nat.zero_le _) f hflt
    rw [this]
    norm_num
  have hqual : ∃ j, j < (m0 :: rest).length ∧
      (((m0 :: rest).getD j default).processTimeMs ≤
        (f : ℚ) * (1000 / outputFps)) := by
    refine ⟨0, by simp, ?_⟩
    simpa using le_trans h0 hft0
  refine ⟨?_, ?_, ?_, ?_⟩
  · rw [hidx]
    exact specTargetIdx_le_ft (m0 :: rest) _ hqual
  · intro j hgt hj
    rw [hidx] at hgt
    exact specTargetIdx_maximal (m0 :: rest) _ j hgt hj
  · rw [smoothMouseMoves, batchTargetIdx]
    exact (smoothLoop_raw_coords (m0 :: rest) (1000 / outputFps) _ 0 0 _ f
      hflt).1
  · rw [smoothMouseMoves, batchTargetIdx]
    exact (smoothLoop_raw_coords (m0 :: rest) (1000 / outputFps) _ 0 0 _ f
      hflt).2

/-- Witness for C5's amended theorem on a concrete single-sample stream
at time zero. -/
theorem nearest_preceding_sample_law_witness :
    (([(⟨3, 4, "c", 0⟩ : MouseMoveEvent)]).getD
        (batchTargetIdx [⟨3, 4, "c", 0⟩] 30 0) default).processTimeMs ≤
      (0 : ℚ) * (1000 / 30) := by
  refine (nearest_preceding_sample_law ⟨3, 4, "c", 0⟩ [] DEFAULT_SPRING_CONFIG
    30 ?_ (by norm_num) (by norm_num) 0 ?_).1
  · intro i j hij hj
    simp only [List.length_cons, List.length_nil] at hj
    interval_cases j
    interval_cases i
    exact le_refl _
  · rw [smoothMouseMoves, smoothLoop_length]
    exact Nat.lt_of_lt_of_le Nat.zero_lt_one (Nat.le_max_left _ _)

/-- The undamped unit spring stepped with `dt = 1` maps the period-6
orbit into itself. -/
theorem undampedOrbit_closed :
    ∀ s ∈ undampedOrbit, stepSpring s 1 ⟨1, 0, 1⟩ 1 ∈ undampedOrbit := by
  intro s hs
  fin_cases hs <;>
    norm_num [stepSpring, undampedOrbit, SpringState.mk.injEq]

/-- Every iterate of the undamped unit spring from rest at `0` toward
target `1` lies on the period-6 orbit. -/
theorem undampedOrbit_mem (n : ℕ) :
    springIter 1 ⟨1, 0, 1⟩ 1 n ⟨0, 0⟩ ∈ undampedOrbit := by
  induction n with
  | zero => simp [springIter, undampedOrbit]
  | succ n ih => exact undampedOrbit_closed _ ih

/-- No state on the period-6 orbit is settled at the default threshold. -/
theorem undampedOrbit_unsettled :
    ∀ s ∈ undampedOrbit, isSpringSettled s 1 (1 / 10) = false := by
  intro s hs
  fin_cases hs <;> norm_num [isSpringSettled, undampedOrbit]

/-- C6 counterexample: the valid configuration
`stiffness = 1, damping = 0, mass = 1` (damping zero is allowed by the
claim) stepped with `dt = 1` from rest at `0` toward target `1` cycles
forever on a period-6 orbit and never settles at threshold `1/10`. -/
theorem spring_convergence_counterexample :
    ¬ ∃ N : ℕ, ∀ n, N ≤ n →
      isSpringSettled (springIter 1 ⟨1, 0, 1⟩ 1 n ⟨0, 0⟩) 1 (1 / 10) = true := by
  rintro ⟨N, h⟩
  have h1 := h N le_rfl
  have h2 := undampedOrbit_unsettled _ (undampedOrbit_mem N)
  rw [h1] at h2
  exact absurd h2 (by simp)

/-- One `stepSpring` step in displacement coordinates, under the
critical relation `damping * dt = mass`: the velocity term of the
update cancels, displacement contracts by `γ = 1 - (k dt / m) dt` and
the new velocity is `-(k dt / m)` times the old displacement. -/
theorem stepSpring_critical (k c m dt target e v : ℚ) (hm : m ≠ 0)
    (hcrit : c * dt = m) :
    stepSpring ⟨target + e, v⟩ target ⟨k, c, m⟩ dt =
      ⟨target + (1 - k * dt / m * dt) * e, -(k * dt / m * e)⟩ := by
  unfold stepSpring
  simp only [SpringState.mk.injEq]
  constructor
  · field_simp
    linear_combination (-(dt * v)) * hcrit
  · field_simp
    linear_combination (-v) * hcrit

/-- C6 amended: convergence of incremental stepping from rest holds
under the stability hypotheses `damping * dt = mass` and
`stiffness * dt * dt < 2 * mass` (for a valid config with positive
stiffness and mass and positive `dt`): the spring settles after
finitely many steps and remains settled under all further stepping
with the unchanged target.  (The original claim, which allowed zero
damping and arbitrary positive `dt`, is refuted by
`spring_convergence_counterexample`.) -/
theorem spring_convergence_amended (config : SpringConfig)
    (dt target p0 threshold : ℚ)
    (hk : 0 < config.stiffness) (hm : 0 < config.mass) (hdt : 0 < dt)
    (hcrit : config.damping * dt = config.mass)
    (hstab : config.stiffness * dt * dt < 2 * config.mass)
    (hth : 0 < threshold) :
    ∃ N : ℕ, ∀ n, N ≤ n →
      isSpringSettled (springIter target config dt n ⟨p0, 0⟩) target
        threshold = true := by
  obtain ⟨k, c, m⟩ := config
  simp only at hk hm hcrit hstab
  have hm0 : m ≠ 0 := ne_of_gt hm
  set β : ℚ := k * dt / m with hβ
  set γ : ℚ := 1 - β * dt with hγdef
  have hβpos : 0 < β := div_pos (mul_pos hk hdt) hm
  have hγ1 : γ < 1 := by
    have := mul_pos hβpos hdt
    rw [hγdef]; linarith
  have hγ2 : -1 < γ := by
    have hβdt : β * dt < 2 := by
      rw [hβ, div_mul_eq_mul_div, div_lt_iff hm]
      linarith
    rw [hγdef]; linarith
  have habs : |γ| < 1 := abs_lt.mpr ⟨hγ2, hγ1⟩
  have habs0 : 0 ≤ |γ| := abs_nonneg γ
  set e0 : ℚ := p0 - target with he0
  have hiter : ∀ j, springIter target ⟨k, c, m⟩ dt (j + 1) ⟨p0, 0⟩ =
      ⟨target + γ ^ (j + 1) * e0, -(β * (γ ^ j * e0))⟩ := by
    intro j
    induction j with
    | zero =>
      show stepSpring (springIter target ⟨k, c, m⟩ dt 0 ⟨p0, 0⟩)
        target ⟨k, c, m⟩ dt = _
      have hp0 : (⟨p0, 0⟩ : SpringState) = ⟨target + e0, 0⟩ := by
        simp only [SpringState.mk.injEq, he0]
        refine ⟨by ring, trivial⟩
      rw [show springIter target ⟨k, c, m⟩ dt 0 ⟨p0, 0⟩ = ⟨p0, 0⟩ from rfl,
        hp0, stepSpring_critical k c m dt target e0 0 hm0 hcrit]
      simp only [SpringState.mk.injEq, hγdef, hβ]
      constructor
      · ring
      · ring
    | succ j ih =>
      show stepSpring (springIter target ⟨k, c, m⟩ dt (j + 1) ⟨p0, 0⟩)
        target ⟨k, c, m⟩ dt = _
      rw [ih, stepSpring_critical k c m dt target (γ ^ (j + 1) * e0)
        (-(β * (γ ^ j * e0))) hm0 hcrit]
      simp only [SpringState.mk.injEq, hγdef, hβ]
      constructor
      · ring
      · ring
  set C : ℚ := |e0| * (1 + β) with hCdef
  have hC0 : 0 ≤ C := by positivity
  obtain ⟨M, hM⟩ : ∃ M : ℕ, |γ| ^ M * C < threshold := by
    rcases eq_or_lt_of_le hC0 with hC | hCpos
    · exact ⟨0, by rw [pow_zero, one_mul, ← hC]; exact hth⟩
    · obtain ⟨M, hM⟩ := exists_pow_lt_of_lt_one (div_pos hth hCpos) habs
      exact ⟨M, (lt_div_iff hCpos).mp hM⟩
  refine ⟨M + 1, ?_⟩
  intro n hn
  obtain ⟨j, rfl⟩ : ∃ j, n = j + 1 := ⟨n - 1, by omega⟩
  have hjM : M ≤ j := by omega
  rw [hiter j, isSpringSettled]
  simp only [Bool.and_eq_true, decide_eq_true_eq]
  have hpowj : |γ| ^ j ≤ |γ| ^ M := pow_le_pow_of_le_one habs0 habs.le hjM
  have hpowj1 : |γ| ^ (j + 1) ≤ |γ| ^ M :=
    pow_le_pow_of_le_one habs0 habs.le (by omega)
  have he0abs : 0 ≤ |e0| := abs_nonneg e0
  have hpowM : 0 ≤ |γ| ^ M := pow_nonneg habs0 M
  have hpowjnn : 0 ≤ |γ| ^ j := pow_nonneg habs0 j
  constructor
  · have harg : target + γ ^ (j + 1) * e0 - target = γ ^ (j + 1) * e0 := by
      ring
    rw [harg, abs_mul, abs_pow]
    calc |γ| ^ (j + 1) * |e0| ≤ |γ| ^ M * |e0| :=
          mul_le_mul_of_nonneg_right hpowj1 he0abs
      _ ≤ |γ| ^ M * C := by
          rw [hCdef]
          exact mul_le_mul_of_nonneg_left
            (le_mul_of_one_le_right he0abs (by linarith)) hpowM
      _ < threshold := hM
  · rw [abs_neg, abs_mul, abs_mul, abs_pow, abs_of_pos hβpos]
    calc β * (|γ| ^ j * |e0|) ≤ β * (|γ| ^ M * |e0|) :=
          mul_le_mul_of_nonneg_left
            (mul_le_mul_of_nonneg_right hpowj he0abs) hβpos.le
      _ = |γ| ^ M * (β * |e0|) := by ring
      _ ≤ |γ| ^ M * C := by
          rw [hCdef]
          refine mul_le_mul_of_nonneg_left ?_ hpowM
          nlinarith
      _ < threshold := hM

/-- Witness for C6's amended theorem: the configuration
`stiffness = damping = mass = 1` with `dt = 1` satisfies every
hypothesis and settles. -/
theorem spring_convergence_amended_witness :
    ∃ N : ℕ, ∀ n, N ≤ n →
      isSpringSettled (springIter 1 ⟨1, 1, 1⟩ 1 n ⟨0, 0⟩) 1 (1 / 10) = true :=
  spring_convergence_amended ⟨1, 1, 1⟩ 1 1 0 (1 / 10) (by norm_num)
    (by norm_num) (by norm_num) (by norm_num) (by norm_num) (by norm_num)

/-- C4: `stepSpring` computes exactly the spec's semi-implicit Euler
step: displacement, spring force, damping force, acceleration, then the
velocity update followed by the position update. -/
theorem stepSpring_is_semi_implicit_euler (state : SpringState) (target : ℚ)
    (config : SpringConfig) (dt : ℚ) :
    stepSpring state target config dt =
      { velocity := state.velocity +
          ((-config.stiffness * (state.position - target) +
            -config.damping * state.velocity) / config.mass) * dt
        position := state.position +
          (state.velocity +
            ((-config.stiffness * (state.position - target) +
              -config.damping * state.velocity) / config.mass) * dt) * dt } :=
  rfl

/-- C10: `calculateScale` is total and guarded: zero video width or
height yields scale 1 with zero offsets; positive video and container
dimensions yield the aspect-ratio-preserving scale
`min (cw/vw) (ch/vh)` with offsets centering the scaled video. -/
theorem calculateScale_guarded_and_centering
    (vw vh cw ch : ℚ) :
    ((vw = 0 ∨ vh = 0) →
      calculateScale vw vh cw ch = { scale := 1, offsetX := 0, offsetY := 0 }) ∧
    (0 < vw → 0 < vh → 0 < cw → 0 < ch →
      (calculateScale vw vh cw ch).scale = min (cw / vw) (ch / vh) ∧
      (calculateScale vw vh cw ch).offsetX =
        (cw - vw * min (cw / vw) (ch / vh)) / 2 ∧
      (calculateScale vw vh cw ch).offsetY =
        (ch - vh * min (cw / vw) (ch / vh)) / 2) := by
  constructor
  · intro h
    simp only [calculateScale, if_pos h]
  · intro hvw hvh _ _
    have h : ¬(vw = 0 ∨ vh = 0) := by
      rintro (h0 | h0) <;> simp [h0] at hvw hvh
    simp only [calculateScale, if_neg h]
    exact ⟨trivial, trivial, trivial⟩

/-- Witness for C10: evaluates `calculateScale` on concrete inputs,
discharging each hypothesis. -/
theorem calculateScale_guarded_and_centering_witness :
    calculateScale 0 5 10 10 = { scale := 1, offsetX := 0, offsetY := 0 } ∧
    (calculateScale 4 2 8 8).scale = min ((8 : ℚ) / 4) ((8 : ℚ) / 2) := by
  refine ⟨(calculateScale_guarded_and_centering 0 5 10 10).1 (Or.inl rfl), ?_⟩
  exact ((calculateScale_guarded_and_centering 4 2 8 8).2
    (by norm_num) (by norm_num) (by norm_num) (by norm_num)).1
